import Mathlib

/-!
Verification of the PIMO/AUPIMO evaluator specified for the anomalib
repository.  The repository itself only contains a notebook that calls the
metric (`AUPIMO()` / `.update()` / `.compute()`); the metric implementation is
not part of the supplied sources, so the definitions below are modelled from
the specification, faithful to its words.  Scores are rationals; the natural
logarithm of the specification is abstracted as a strictly monotone axis
transform `lg : ℚ → ℚ`, which keeps every definition computable; NaN, the
documented sentinel for an undefined per-image recall, is modelled as `none`.
-/

namespace Aupimo

/-- Modelled from the spec: an image is the list of its pixels, each one an
anomaly score (a ScoreMap entry) paired with its ground-truth mask bit
(`true` = anomalous pixel); ScoreMap and GroundTruthMask have the same shape,
so zipping them loses nothing. -/
abbrev Image : Type := List (ℚ × Bool)

/-- Modelled from the spec: an image is normal iff its mask is entirely zero. -/
def isNormal (img : Image) : Bool := img.all (fun p => !p.2)

/-- Number of anomalous pixels of an image. -/
def numAnom (img : Image) : Nat := img.countP (fun p => p.2)

/-- Modelled from the spec: a pixel with score `s` counts as positive at
threshold `t` exactly when `s ≥ t` (threshold-inclusive comparison, ties at
the exact threshold value count toward the positive side). -/
def positiveAt (t s : ℚ) : Bool := t ≤ s

/-- True positives of one image at a threshold: anomalous pixels whose score
passes the threshold. -/
def truePos (img : Image) (t : ℚ) : Nat :=
  img.countP (fun p => p.2 && positiveAt t p.1)

/-- Recall value of an image with anomalous pixels: true positives over the
anomalous pixel count. -/
def recallVal (img : Image) (t : ℚ) : ℚ :=
  (truePos img t : ℚ) / (numAnom img : ℚ)

/-- Modelled from the spec: per-image recall (TPR) at a threshold; `none`
models the NaN sentinel used when the image has zero anomalous pixels. -/
def recallAt (img : Image) (t : ℚ) : Option ℚ :=
  if numAnom img = 0 then none else some (recallVal img t)

/-- Pooled scores of all pixels of all normal images of a run. -/
def normalPixelScores (imgs : List Image) : List ℚ :=
  (imgs.filter isNormal).flatMap (fun img => img.map Prod.fst)

/-- False positives over the pooled normal scores at a threshold. -/
def falsePos (ns : List ℚ) (t : ℚ) : Nat := ns.countP (fun s => positiveAt t s)

/-- Modelled from the spec: the shared false-positive rate at a threshold,
computed over the pooled normal-image pixel scores. -/
def fpr (ns : List ℚ) (t : ℚ) : ℚ := (falsePos ns t : ℚ) / (ns.length : ℚ)

/-- Modelled from the spec (section 7): the error kinds of the evaluator. -/
inductive MetricError
  | insufficientData
  | degenerateRange
  | rangeNotAchievable
  | notEnoughData
deriving DecidableEq, Repr

/-- Modelled from the spec: the degenerate-range test, all pooled normal
scores identical. -/
def allSame (l : List ℚ) : Bool :=
  match l with
  | [] => true
  | x :: xs => xs.all (fun y => decide (y = x))

/-- Insert a value into a strictly increasing list, keeping it strictly
increasing (duplicates are dropped). -/
def insertUnique (x : ℚ) : List ℚ → List ℚ
  | [] => [x]
  | y :: ys =>
    if x < y then x :: y :: ys
    else if x = y then y :: ys
    else y :: insertUnique x ys

/-- Sort a list of scores into a strictly increasing list of its values. -/
def sortedDedup (l : List ℚ) : List ℚ := l.foldr insertUnique []

/-- Modelled from the spec (section 4.1): the threshold grid builder.  It
fails with `InsufficientDataError` when the accumulated state has no normal
image or when all pooled normal scores are identical (degenerate range);
otherwise it returns the sorted deduplicated pooled scores — the achievable
grid of the spec dedupe fallback, which is the maximal-resolution instance of
the log-spaced selection. -/
def buildThresholds (imgs : List Image) : Except MetricError (List ℚ) :=
  if (imgs.filter isNormal).isEmpty then .error .insufficientData
  else if allSame (normalPixelScores imgs) then .error .insufficientData
  else .ok (sortedDedup (normalPixelScores imgs))

/-- Modelled from the spec (section 3): the per-image curve, a shared
threshold-indexed FPR axis and the per-image TPR values (`none` throughout for
a normal image). -/
structure PerImageCurve where
  fprAxis : List ℚ
  tprValues : List (Option ℚ)
deriving Repr, DecidableEq

/-- Per-image curve computation (spec section 4.2): the FPR axis is taken from
the pooled normal scores, the TPR values from the image itself. -/
def imageCurve (ths ns : List ℚ) (img : Image) : PerImageCurve :=
  ⟨ths.map (fpr ns), ths.map (recallAt img)⟩

/-- The curve of an anomalous image as (FPR, TPR) value pairs ordered by
increasing FPR (the thresholds are ascending, so FPR order is their
reverse). -/
def curvePoints (ths ns : List ℚ) (img : Image) : List (ℚ × ℚ) :=
  (ths.map (fun t => (fpr ns t, recallVal img t))).reverse

/-- Modelled from the spec (section 4.3 step 1): locate the grid points
bracketing a bound `b` on a curve ordered by increasing FPR and synthesize the
boundary TPR: the stored TPR when `b` coincides with a grid point, otherwise
the linear interpolation in TPR over the log-FPR axis `lg`; a bound outside
the covered range is clamped to the nearest end point. -/
def interpAt (lg : ℚ → ℚ) (pts : List (ℚ × ℚ)) (b : ℚ) : ℚ :=
  match pts with
  | [] => 0
  | [p] => p.2
  | p :: q :: rest =>
    if b ≤ p.1 then p.2
    else if b ≤ q.1 then
      if b = q.1 then q.2
      else p.2 + (lg b - lg p.1) / (lg q.1 - lg p.1) * (q.2 - p.2)
    else interpAt lg (q :: rest) b

/-- Modelled from the spec (section 4.3 step 2): truncate the curve to the
closed sub-range [lower, upper], keeping the grid points strictly inside and
adding the two synthesized boundary points. -/
def truncateCurve (lg : ℚ → ℚ) (pts : List (ℚ × ℚ)) (lower upper : ℚ) :
    List (ℚ × ℚ) :=
  (lower, interpAt lg pts lower)
    :: pts.filter (fun p => decide (lower < p.1) && decide (p.1 < upper))
    ++ [(upper, interpAt lg pts upper)]

/-- Modelled from the spec (section 4.3 step 3): the trapezoidal rule on a
list of (x, y) points. -/
def trapezoid : List (ℚ × ℚ) → ℚ
  | p :: q :: rest => (q.1 - p.1) * (p.2 + q.2) / 2 + trapezoid (q :: rest)
  | _ => 0

/-- Modelled from the spec (section 4.3 steps 3 and 4): integrate TPR against
log FPR over the truncated curve with the trapezoidal rule, then normalize by
the full TPR=1 rectangle width `lg upper - lg lower`. -/
def aupimoScore (lg : ℚ → ℚ) (curve : List (ℚ × ℚ)) (lower upper : ℚ) : ℚ :=
  trapezoid ((truncateCurve lg curve lower upper).map (fun p => (lg p.1, p.2)))
    / (lg upper - lg lower)

/-- Modelled from the spec (section 3): the evaluator state, the images
accumulated by successive update calls, in call order. -/
structure EvaluatorState where
  images : List Image
deriving DecidableEq

/-- Modelled from the spec (section 4.4): update appends the pair to the
state. -/
def update (st : EvaluatorState) (img : Image) : EvaluatorState :=
  ⟨st.images ++ [img]⟩

/-- The PIMO curve collection: the shared grid and axis plus one curve per
image in update order. -/
structure PimoResult where
  thresholds : List ℚ
  sharedFpr : List ℚ
  curves : List PerImageCurve
deriving DecidableEq

/-- Modelled from the spec (section 3): the AUPIMO result, one scalar per
image (`none` is the NaN sentinel of a normal image) plus the FPR bounds and
the achieved grid size. -/
structure AupimoResult where
  aupimos : List (Option ℚ)
  fprLowerBound : ℚ
  fprUpperBound : ℚ
  numThresholds : Nat
deriving DecidableEq

/-- What compute returns: a single average in average mode, otherwise the
pair of the PIMO curve collection and the AUPIMO result. -/
inductive ComputeOutput
  | average (value : ℚ)
  | full (pimo : PimoResult) (aupimo : AupimoResult)
deriving DecidableEq

/-- The configuration surface of the metric that the claims exercise. -/
structure Metric where
  returnAverage : Bool
  lower : ℚ
  upper : ℚ

/-- Per-image AUPIMO entries, one per accumulated image in update order;
`none` models the NaN sentinel of a normal image and is produced by a total
function, never by a failure. -/
def aupimosOf (lg : ℚ → ℚ) (lower upper : ℚ) (ths ns : List ℚ)
    (imgs : List Image) : List (Option ℚ) :=
  imgs.map (fun img =>
    if numAnom img = 0 then none
    else some (aupimoScore lg (curvePoints ths ns img) lower upper))

/-- Modelled from the spec (section 4.4): reduce the non-NaN per-image scores
via arithmetic mean, failing with `InsufficientDataError` when there is no
anomalous image and hence no non-NaN score. -/
def averageOutput (scores : List (Option ℚ)) : Except MetricError ComputeOutput :=
  if (scores.filterMap id).isEmpty then .error .insufficientData
  else .ok (.average
    ((scores.filterMap id).sum / ((scores.filterMap id).length : ℚ)))

/-- The successful-grid stage of compute: either the average of the non-NaN
scores or the full per-image results. -/
def computeWith (lg : ℚ → ℚ) (m : Metric) (imgs : List Image)
    (ths : List ℚ) : Except MetricError ComputeOutput :=
  if m.returnAverage then
    averageOutput (aupimosOf lg m.lower m.upper ths (normalPixelScores imgs) imgs)
  else
    .ok (.full
      ⟨ths, ths.map (fpr (normalPixelScores imgs)),
        imgs.map (imageCurve ths (normalPixelScores imgs))⟩
      ⟨aupimosOf lg m.lower m.upper ths (normalPixelScores imgs) imgs,
        m.lower, m.upper, ths.length⟩)

/-- Modelled from the spec (section 4.4): compute fails with
`NotEnoughDataError` in the Empty state, otherwise builds the grid, derives
every per-image curve and score, and either averages the non-NaN scores
(failing with `InsufficientDataError` when there is none) or returns the full
per-image results. -/
def computeResult (lg : ℚ → ℚ) (m : Metric) (st : EvaluatorState) :
    Except MetricError ComputeOutput :=
  if st.images.isEmpty then .error .notEnoughData
  else
    match buildThresholds st.images with
    | .error e => .error e
    | .ok ths => computeWith lg m st.images ths

/-- Modelled from the spec (section 4.4): compute returns its result together
with the retained state, which it does not mutate; a repeated call re-derives
the same values deterministically. -/
def computePair (lg : ℚ → ℚ) (m : Metric) (st : EvaluatorState) :
    Except MetricError ComputeOutput × EvaluatorState :=
  (computeResult lg m st, st)

theorem positiveAt_iff (t s : ℚ) : positiveAt t s = true ↔ t ≤ s := by
  simp [positiveAt]

theorem truePos_le_numAnom (img : Image) (t : ℚ) : truePos img t ≤ numAnom img :=
  List.countP_mono_left (fun p _ hp => by
    simp only [Bool.and_eq_true] at hp
    exact hp.1)

theorem truePos_antitone (img : Image) {t1 t2 : ℚ} (h : t1 ≤ t2) :
    truePos img t2 ≤ truePos img t1 :=
  List.countP_mono_left (fun p _ hp => by
    simp only [Bool.and_eq_true, positiveAt, decide_eq_true_eq] at hp ⊢
    exact ⟨hp.1, le_trans h hp.2⟩)

theorem recallVal_nonneg (img : Image) (t : ℚ) : 0 ≤ recallVal img t :=
  div_nonneg (Nat.cast_nonneg _) (Nat.cast_nonneg _)

theorem recallVal_le_one (img : Image) (t : ℚ) : recallVal img t ≤ 1 := by
  unfold recallVal
  rcases Nat.eq_zero_or_pos (numAnom img) with h | h
  · simp [h]
  · rw [div_le_one (by exact_mod_cast h)]
    exact_mod_cast truePos_le_numAnom img t

theorem recallVal_antitone (img : Image) {t1 t2 : ℚ} (h : t1 ≤ t2) :
    recallVal img t2 ≤ recallVal img t1 := by
  unfold recallVal
  rcases Nat.eq_zero_or_pos (numAnom img) with h0 | h0
  · simp [h0]
  · rw [div_le_div_iff_of_pos_right (by exact_mod_cast h0)]
    exact_mod_cast truePos_antitone img h

theorem falsePos_antitone (ns : List ℚ) {t1 t2 : ℚ} (h : t1 ≤ t2) :
    falsePos ns t2 ≤ falsePos ns t1 :=
  List.countP_mono_left (fun s _ hs => by
    simp only [positiveAt, decide_eq_true_eq] at hs ⊢
    exact le_trans h hs)

theorem fpr_antitone (ns : List ℚ) {t1 t2 : ℚ} (h : t1 ≤ t2) :
    fpr ns t2 ≤ fpr ns t1 := by
  unfold fpr
  rcases Nat.eq_zero_or_pos ns.length with h0 | h0
  · simp [h0]
  · rw [div_le_div_iff_of_pos_right (by exact_mod_cast h0)]
    exact_mod_cast falsePos_antitone ns h

/-- C4: for every image and thresholds t1 ≤ t2, the recall at t1 is at least
the recall at t2 wherever recall is defined, and the positivity test is
threshold-inclusive: a pixel counts as positive at threshold t exactly when
its score is at least t, so a tie counts toward the positive side. -/
theorem recall_antitone_threshold_inclusive (img : Image) (t1 t2 : ℚ)
    (h12 : t1 ≤ t2) (r1 r2 : ℚ) (h1 : recallAt img t1 = some r1)
    (h2 : recallAt img t2 = some r2) :
    r2 ≤ r1 ∧ (∀ t s : ℚ, positiveAt t s = true ↔ t ≤ s) := by
  unfold recallAt at h1 h2
  by_cases hn : numAnom img = 0
  · simp [hn] at h1
  · rw [if_neg hn] at h1 h2
    injection h1 with h1
    injection h2 with h2
    subst h1
    subst h2
    exact ⟨recallVal_antitone img h12, positiveAt_iff⟩

theorem recall_antitone_threshold_inclusive_witness :
    ((1 : ℚ) / 2 ≤ 1 ∧ ∀ t s : ℚ, positiveAt t s = true ↔ t ≤ s) :=
  recall_antitone_threshold_inclusive [(1, true), (2, true)] 1 2 (by norm_num)
    1 (1 / 2)
    (by norm_num [recallAt, recallVal, truePos, numAnom, positiveAt])
    (by norm_num [recallAt, recallVal, truePos, numAnom, positiveAt])

/-- C3: with an ascending threshold grid, the shared FPR axis is
non-increasing as the threshold index increases, and the FPR axis of the
per-image curve is the same sequence for every image of the run. -/
theorem fpr_axis_antitone_and_shared (ths ns : List ℚ)
    (hs : ths.Pairwise (· ≤ ·)) :
    (∀ img : Image,
      (imageCurve ths ns img).fprAxis.Pairwise (fun a b => b ≤ a)) ∧
    (∀ img1 img2 : Image,
      (imageCurve ths ns img1).fprAxis = (imageCurve ths ns img2).fprAxis) := by
  refine ⟨fun img => ?_, fun _ _ => rfl⟩
  simp only [imageCurve]
  rw [List.pairwise_map]
  exact hs.imp (fun h => fpr_antitone ns h)

theorem fpr_axis_antitone_and_shared_witness :
    (∀ img : Image,
      (imageCurve [1, 2] [1] img).fprAxis.Pairwise (fun a b => b ≤ a)) ∧
    (∀ img1 img2 : Image,
      (imageCurve [1, 2] [1] img1).fprAxis =
        (imageCurve [1, 2] [1] img2).fprAxis) :=
  fpr_axis_antitone_and_shared [1, 2] [1] (by norm_num)

theorem allSame_iff (l : List ℚ) :
    allSame l = true ↔ ∀ x ∈ l, ∀ y ∈ l, x = y := by
  cases l with
  | nil => simp [allSame]
  | cons x xs =>
    simp only [allSame, List.all_eq_true, decide_eq_true_eq]
    constructor
    · intro h a ha b hb
      have key : ∀ c ∈ x :: xs, c = x := by
        intro c hc
        rcases List.mem_cons.mp hc with h1 | h1
        · exact h1
        · exact h c h1
      rw [key a ha, key b hb]
    · intro h y hy
      exact h y (List.mem_cons_of_mem x hy) x (List.mem_cons_self x xs)

theorem mem_insertUnique {x b : ℚ} {l : List ℚ} :
    b ∈ insertUnique x l ↔ b = x ∨ b ∈ l := by
  induction l with
  | nil => simp [insertUnique]
  | cons y ys ih =>
    by_cases h1 : x < y
    · simp [insertUnique, h1, List.mem_cons]
    · by_cases h2 : x = y
      · subst h2
        have hres : insertUnique x (x :: ys) = x :: ys := by
          simp [insertUnique, h1]
        rw [hres, List.mem_cons]
        tauto
      · simp only [insertUnique, if_neg h1, if_neg h2, List.mem_cons, ih]
        tauto

theorem insertUnique_pairwise {x : ℚ} {l : List ℚ}
    (h : l.Pairwise (· < ·)) : (insertUnique x l).Pairwise (· < ·) := by
  induction l with
  | nil => simp [insertUnique]
  | cons y ys ih =>
    simp only [insertUnique]
    by_cases h1 : x < y
    · rw [if_pos h1]
      refine List.pairwise_cons.mpr ⟨fun b hb => ?_, h⟩
      rcases List.mem_cons.mp hb with rfl | hb
      · exact h1
      · exact h1.trans (List.rel_of_pairwise_cons h hb)
    · by_cases h2 : x = y
      · rw [if_neg h1, if_pos h2]
        exact h
      · rw [if_neg h1, if_neg h2]
        have hyx : y < x :=
          lt_of_le_of_ne (le_of_not_lt h1) (fun hxy => h2 hxy.symm)
        refine List.pairwise_cons.mpr ⟨fun b hb => ?_,
          ih (List.pairwise_cons.mp h).2⟩
        rcases mem_insertUnique.mp hb with rfl | hb
        · exact hyx
        · exact List.rel_of_pairwise_cons h hb

theorem sortedDedup_pairwise (l : List ℚ) :
    (sortedDedup l).Pairwise (· < ·) := by
  unfold sortedDedup
  induction l with
  | nil => simp
  | cons x xs ih => exact insertUnique_pairwise ih

/-- C5: the threshold grid builder fails with the insufficient-data error in
exactly two situations — no normal image in the accumulated state, or all
pooled normal scores identical (degenerate range) — raises no other error
kind, and any grid it returns is strictly increasing. -/
theorem buildThresholds_error_conditions (imgs : List Image) :
    (buildThresholds imgs = .error .insufficientData ↔
      ((∀ img ∈ imgs, isNormal img = false) ∨
        ∀ x ∈ normalPixelScores imgs, ∀ y ∈ normalPixelScores imgs, x = y)) ∧
    (∀ e, buildThresholds imgs = .error e → e = .insufficientData) ∧
    (∀ l, buildThresholds imgs = .ok l → l.Pairwise (· < ·)) := by
  unfold buildThresholds
  by_cases h1 : (imgs.filter isNormal).isEmpty
  · rw [if_pos h1]
    have hfil : imgs.filter isNormal = [] := List.isEmpty_iff.mp h1
    have hnone : ∀ img ∈ imgs, isNormal img = false := by
      intro img himg
      simpa using List.filter_eq_nil_iff.mp hfil img himg
    exact ⟨⟨fun _ => Or.inl hnone, fun _ => rfl⟩,
      fun e he => by injection he with he; exact he.symm,
      fun l hl => by cases hl⟩
  · rw [if_neg h1]
    by_cases h2 : allSame (normalPixelScores imgs)
    · rw [if_pos h2]
      refine ⟨⟨fun _ => Or.inr ((allSame_iff _).mp h2), fun _ => rfl⟩,
        fun e he => by injection he with he; exact he.symm,
        fun l hl => by cases hl⟩
    · rw [if_neg h2]
      refine ⟨?_, ?_, ?_⟩
      · constructor
        · intro hx
          cases hx
        · intro hx
          exfalso
          rcases hx with hx | hx
          · refine absurd (List.filter_eq_nil_iff.mpr ?_)
              (by simpa [List.isEmpty_iff] using h1)
            intro img himg
            simp [hx img himg]
          · exact absurd ((allSame_iff _).mpr hx) h2
      · intro e he
        cases he
      · intro l hl
        injection hl with hl
        exact hl ▸ sortedDedup_pairwise _

theorem buildThresholds_error_conditions_witness :
    ([1, 2] : List ℚ).Pairwise (· < ·) :=
  (buildThresholds_error_conditions [[(1, false), (2, false)]]).2.2 [1, 2] rfl

theorem convex_combo_unit {c y0 y1 : ℚ} (hc0 : 0 ≤ c) (hc1 : c ≤ 1)
    (h0 : 0 ≤ y0) (h0' : y0 ≤ 1) (h1 : 0 ≤ y1) (h1' : y1 ≤ 1) :
    0 ≤ y0 + c * (y1 - y0) ∧ y0 + c * (y1 - y0) ≤ 1 := by
  constructor
  · nlinarith [mul_nonneg hc0 h1, mul_nonneg (sub_nonneg.mpr hc1) h0]
  · nlinarith [mul_nonneg hc0 (sub_nonneg.mpr h1'),
      mul_nonneg (sub_nonneg.mpr hc1) (sub_nonneg.mpr h0')]

theorem interpAt_mem_unit (lg : ℚ → ℚ) (hlg : StrictMono lg) (b : ℚ) :
    ∀ pts : List (ℚ × ℚ), (∀ p ∈ pts, 0 ≤ p.2 ∧ p.2 ≤ 1) →
      0 ≤ interpAt lg pts b ∧ interpAt lg pts b ≤ 1 := by
  intro pts
  induction pts with
  | nil =>
    intro _
    simp [interpAt]
  | cons p rest ih =>
    intro hy
    cases rest with
    | nil => simpa [interpAt] using hy p (by simp)
    | cons q rest2 =>
      simp only [interpAt]
      by_cases h1 : b ≤ p.1
      · rw [if_pos h1]
        exact hy p (by simp)
      · rw [if_neg h1]
        by_cases h2 : b ≤ q.1
        · rw [if_pos h2]
          by_cases h3 : b = q.1
          · rw [if_pos h3]
            exact hy q (by simp)
          · rw [if_neg h3]
            have hpb : p.1 < b := not_le.mp h1
            have hbq : b < q.1 := lt_of_le_of_ne h2 h3
            have h4 : lg p.1 < lg b := hlg hpb
            have h5 : lg b < lg q.1 := hlg hbq
            have hden : 0 < lg q.1 - lg p.1 := by linarith
            have hc0 : 0 ≤ (lg b - lg p.1) / (lg q.1 - lg p.1) :=
              div_nonneg (by linarith) hden.le
            have hc1 : (lg b - lg p.1) / (lg q.1 - lg p.1) ≤ 1 := by
              rw [div_le_one hden]
              linarith
            have hp := hy p (by simp)
            have hq := hy q (by simp)
            have := convex_combo_unit hc0 hc1 hp.1 hp.2 hq.1 hq.2
            constructor
            · have h6 := this.1
              nlinarith [h6]
            · have h6 := this.2
              nlinarith [h6]
        · rw [if_neg h2]
          exact ih (fun r hr => hy r (List.mem_cons_of_mem p hr))

theorem interpAt_exact (lg : ℚ → ℚ) :
    ∀ pts : List (ℚ × ℚ), pts.Pairwise (fun p q => p.1 < q.1) →
      ∀ b y : ℚ, (b, y) ∈ pts → interpAt lg pts b = y := by
  intro pts
  induction pts with
  | nil =>
    intro _ b y hmem
    cases hmem
  | cons p rest ih =>
    intro hs b y hmem
    cases rest with
    | nil =>
      have heq : (b, y) = p := List.mem_singleton.mp hmem
      have hb : b = p.1 := congrArg Prod.fst heq
      have hyp : y = p.2 := congrArg Prod.snd heq
      simp [interpAt, hyp]
    | cons q rest2 =>
      rcases List.mem_cons.mp hmem with heq | hmem2
      · have hb : b = p.1 := congrArg Prod.fst heq
        have hyp : y = p.2 := congrArg Prod.snd heq
        simp only [interpAt]
        rw [if_pos hb.le, hyp]
      · have hpb : p.1 < b := by
          have := List.rel_of_pairwise_cons hs hmem2
          exact this
        simp only [interpAt]
        rw [if_neg (not_le.mpr hpb)]
        by_cases h2 : b ≤ q.1
        · rw [if_pos h2]
          rcases List.mem_cons.mp hmem2 with heq | hmem3
          · have hb : b = q.1 := congrArg Prod.fst heq
            have hyq : y = q.2 := congrArg Prod.snd heq
            rw [if_pos hb, hyq]
          · have hqb : q.1 < b :=
              List.rel_of_pairwise_cons (List.pairwise_cons.mp hs).2 hmem3
            exact absurd h2 (not_le.mpr hqb)
        · rw [if_neg h2]
          exact ih (List.pairwise_cons.mp hs).2 b y hmem2

/-- C9: an FPR bound that exactly coincides with a grid point of a strictly
increasing curve produces the stored TPR at that point — no interpolation
error — while a bound strictly between two grid points is synthesized by the
linear-in-TPR interpolation over the log-FPR axis. -/
theorem interpolation_exact_at_grid_points (lg : ℚ → ℚ)
    (pts : List (ℚ × ℚ)) (hs : pts.Pairwise (fun p q => p.1 < q.1)) :
    (∀ b y : ℚ, (b, y) ∈ pts → interpAt lg pts b = y) ∧
    (∀ (p q : ℚ × ℚ) (rest : List (ℚ × ℚ)) (b : ℚ),
      pts = p :: q :: rest → p.1 < b → b < q.1 →
      interpAt lg pts b =
        p.2 + (lg b - lg p.1) / (lg q.1 - lg p.1) * (q.2 - p.2)) := by
  constructor
  · exact interpAt_exact lg pts hs
  · intro p q rest b hpts hpb hbq
    subst hpts
    simp only [interpAt]
    rw [if_neg (not_le.mpr hpb), if_pos hbq.le, if_neg (ne_of_lt hbq)]

theorem interpolation_exact_at_grid_points_witness :
    interpAt id [((1 : ℚ), 0), (2, 1)] 2 = 1 :=
  (interpolation_exact_at_grid_points id [((1 : ℚ), 0), (2, 1)]
    (by norm_num)).1 2 1 (by norm_num)

theorem trapezoid_nonneg :
    ∀ pts : List (ℚ × ℚ), pts.Pairwise (fun p q => p.1 ≤ q.1) →
      (∀ p ∈ pts, 0 ≤ p.2) → 0 ≤ trapezoid pts := by
  intro pts
  induction pts with
  | nil =>
    intro _ _
    simp [trapezoid]
  | cons p rest ih =>
    intro hs hy
    cases rest with
    | nil => simp [trapezoid]
    | cons q rest2 =>
      simp only [trapezoid]
      have h1 : p.1 ≤ q.1 := List.rel_of_pairwise_cons hs (by simp)
      have h2 := ih (List.pairwise_cons.mp hs).2
        (fun r hr => hy r (List.mem_cons_of_mem p hr))
      have hyp := hy p (by simp)
      have hyq := hy q (by simp)
      nlinarith [mul_nonneg (sub_nonneg.mpr h1) (add_nonneg hyp hyq)]

theorem trapezoid_le :
    ∀ (pts : List (ℚ × ℚ)) (p0 : ℚ × ℚ),
      (p0 :: pts).Pairwise (fun p q => p.1 ≤ q.1) →
      (∀ p ∈ p0 :: pts, p.2 ≤ 1) →
      trapezoid (p0 :: pts) ≤
        ((p0 :: pts).getLast (List.cons_ne_nil _ _)).1 - p0.1 := by
  intro pts
  induction pts with
  | nil =>
    intro p0 _ _
    simp [trapezoid, List.getLast_singleton]
  | cons q rest ih =>
    intro p0 hs hy
    simp only [trapezoid]
    have hlast : ((p0 :: q :: rest).getLast (List.cons_ne_nil _ _)) =
        ((q :: rest).getLast (List.cons_ne_nil _ _)) :=
      List.getLast_cons (List.cons_ne_nil _ _)
    rw [hlast]
    have h1 : p0.1 ≤ q.1 := List.rel_of_pairwise_cons hs (by simp)
    have h2 := ih q (List.pairwise_cons.mp hs).2
      (fun r hr => hy r (List.mem_cons_of_mem p0 hr))
    have hyp := hy p0 (by simp)
    have hyq := hy q (by simp)
    nlinarith [mul_nonneg (sub_nonneg.mpr h1)
      (by linarith : (0 : ℚ) ≤ 2 - (p0.2 + q.2))]

theorem truncate_mem (lg : ℚ → ℚ) (pts : List (ℚ × ℚ)) (lower upper : ℚ)
    {p : ℚ × ℚ} (hp : p ∈ truncateCurve lg pts lower upper) :
    p = (lower, interpAt lg pts lower) ∨
      p = (upper, interpAt lg pts upper) ∨
      (p ∈ pts ∧ lower < p.1 ∧ p.1 < upper) := by
  unfold truncateCurve at hp
  rcases List.mem_cons.mp hp with heq | hp2
  · exact Or.inl heq
  · rcases List.mem_append.mp hp2 with hmid | hhi
    · have h := List.mem_filter.mp hmid
      simp only [Bool.and_eq_true, decide_eq_true_eq] at h
      exact Or.inr (Or.inr ⟨h.1, h.2.1, h.2.2⟩)
    · exact Or.inr (Or.inl (List.mem_singleton.mp hhi))

theorem truncate_pairwise (lg : ℚ → ℚ) (pts : List (ℚ × ℚ))
    (lower upper : ℚ) (hlu : lower ≤ upper)
    (hs : pts.Pairwise (fun p q => p.1 ≤ q.1)) :
    (truncateCurve lg pts lower upper).Pairwise (fun p q => p.1 ≤ q.1) := by
  unfold truncateCurve
  refine List.pairwise_cons.mpr ⟨?_, ?_⟩
  · intro b hb
    rcases List.mem_append.mp hb with hmid | hhi
    · have h := List.mem_filter.mp hmid
      simp only [Bool.and_eq_true, decide_eq_true_eq] at h
      exact h.2.1.le
    · have hb2 : b = (upper, interpAt lg pts upper) := List.mem_singleton.mp hhi
      rw [hb2]
      exact hlu
  · rw [List.append_eq, List.pairwise_append]
    refine ⟨List.Pairwise.sublist (List.filter_sublist _) hs,
      List.pairwise_singleton _ _, ?_⟩
    intro a ha b hb
    have h := List.mem_filter.mp ha
    simp only [Bool.and_eq_true, decide_eq_true_eq] at h
    have hb2 : b = (upper, interpAt lg pts upper) := List.mem_singleton.mp hb
    rw [hb2]
    exact h.2.2.le

theorem truncate_tpr_unit (lg : ℚ → ℚ) (hlg : StrictMono lg)
    (pts : List (ℚ × ℚ)) (lower upper : ℚ)
    (hy : ∀ p ∈ pts, 0 ≤ p.2 ∧ p.2 ≤ 1) :
    ∀ p ∈ truncateCurve lg pts lower upper, 0 ≤ p.2 ∧ p.2 ≤ 1 := by
  intro p hp
  rcases truncate_mem lg pts lower upper hp with heq | heq | ⟨hmem, _, _⟩
  · rw [heq]
    exact interpAt_mem_unit lg hlg lower pts hy
  · rw [heq]
    exact interpAt_mem_unit lg hlg upper pts hy
  · exact hy p hmem

theorem getLast_cons_concat (p0 b : ℚ × ℚ) (l : List (ℚ × ℚ)) :
    ((p0 :: (l ++ [b])).getLast (List.cons_ne_nil _ _)) = b := by
  show ((p0 :: l) ++ [b]).getLast _ = b
  exact List.getLast_concat _

theorem aupimoScore_mem_unit (lg : ℚ → ℚ) (hlg : StrictMono lg)
    (pts : List (ℚ × ℚ)) (lower upper : ℚ) (hlu : lower < upper)
    (hs : pts.Pairwise (fun p q => p.1 ≤ q.1))
    (hy : ∀ p ∈ pts, 0 ≤ p.2 ∧ p.2 ≤ 1) :
    0 ≤ aupimoScore lg pts lower upper ∧ aupimoScore lg pts lower upper ≤ 1 := by
  have hden : 0 < lg upper - lg lower := sub_pos.mpr (hlg hlu)
  have hT_pair := truncate_pairwise lg pts lower upper hlu.le hs
  have hT_y := truncate_tpr_unit lg hlg pts lower upper hy
  have hM_pair : ((truncateCurve lg pts lower upper).map
      (fun p => (lg p.1, p.2))).Pairwise (fun p q => p.1 ≤ q.1) := by
    rw [List.pairwise_map]
    exact hT_pair.imp (fun h => hlg.monotone h)
  have hM_y : ∀ p ∈ (truncateCurve lg pts lower upper).map
      (fun p => (lg p.1, p.2)), 0 ≤ p.2 ∧ p.2 ≤ 1 := by
    intro p hp
    rcases List.mem_map.mp hp with ⟨r, hr, heq⟩
    rw [← heq]
    exact hT_y r hr
  have hcons : (truncateCurve lg pts lower upper).map (fun p => (lg p.1, p.2)) =
      (lg lower, interpAt lg pts lower) ::
        ((pts.filter (fun p => decide (lower < p.1) && decide (p.1 < upper))).map
            (fun p => (lg p.1, p.2)) ++
          [(lg upper, interpAt lg pts upper)]) := by
    simp [truncateCurve]
  have hnn := trapezoid_nonneg _ hM_pair (fun p hp => (hM_y p hp).1)
  rw [hcons] at hM_pair hnn
  have hub := trapezoid_le _ (lg lower, interpAt lg pts lower) hM_pair
    (by
      intro p hp
      rw [← hcons] at hp
      exact (hM_y p hp).2)
  rw [getLast_cons_concat] at hub
  unfold aupimoScore
  rw [hcons]
  constructor
  · exact div_nonneg hnn hden.le
  · rw [div_le_one hden]
    simpa using hub

/-- C1: for an anomalous-image curve and FPR bounds, the AUPIMO score is the
trapezoidal-rule integral of TPR against the log-FPR axis over the truncated
curve, divided by the full TPR=1 rectangle width on the log axis, and the
resulting value lies in [0, 1]. -/
theorem aupimo_trapezoid_normalized_unit (lg : ℚ → ℚ)
    (curve : List (ℚ × ℚ)) (lower upper : ℚ) (hlg : StrictMono lg)
    (hlu : lower < upper) (hs : curve.Pairwise (fun p q => p.1 ≤ q.1))
    (hy : ∀ p ∈ curve, 0 ≤ p.2 ∧ p.2 ≤ 1) :
    aupimoScore lg curve lower upper =
      trapezoid ((truncateCurve lg curve lower upper).map
        (fun p => (lg p.1, p.2))) / (lg upper - lg lower) ∧
    0 ≤ aupimoScore lg curve lower upper ∧
    aupimoScore lg curve lower upper ≤ 1 :=
  ⟨rfl, aupimoScore_mem_unit lg hlg curve lower upper hlu hs hy⟩

theorem aupimo_trapezoid_normalized_unit_witness :
    aupimoScore id [((1 : ℚ), 0), (2, 1)] 1 2 =
      trapezoid ((truncateCurve id [((1 : ℚ), 0), (2, 1)] 1 2).map
        (fun p => (id p.1, p.2))) / (id 2 - id 1) ∧
    0 ≤ aupimoScore id [((1 : ℚ), 0), (2, 1)] 1 2 ∧
    aupimoScore id [((1 : ℚ), 0), (2, 1)] 1 2 ≤ 1 :=
  aupimo_trapezoid_normalized_unit id [((1 : ℚ), 0), (2, 1)] 1 2
    strictMono_id (by norm_num) (by norm_num)
    (by
      intro p hp
      rcases List.mem_cons.mp hp with heq | hp2
      · rw [heq]
        norm_num
      · rw [List.mem_singleton.mp hp2]
        norm_num)

theorem isNormal_iff_numAnom (img : Image) :
    isNormal img = true ↔ numAnom img = 0 := by
  simp [isNormal, numAnom, List.all_eq_true, List.countP_eq_zero]

theorem buildThresholds_ok_pairwise {imgs : List Image} {ths : List ℚ}
    (h : buildThresholds imgs = .ok ths) : ths.Pairwise (· < ·) := by
  unfold buildThresholds at h
  by_cases h1 : (imgs.filter isNormal).isEmpty
  · rw [if_pos h1] at h
    cases h
  · rw [if_neg h1] at h
    by_cases h2 : allSame (normalPixelScores imgs)
    · rw [if_pos h2] at h
      cases h
    · rw [if_neg h2] at h
      injection h with h
      exact h ▸ sortedDedup_pairwise _

theorem buildThresholds_error_kind {imgs : List Image} {e : MetricError}
    (h : buildThresholds imgs = .error e) : e = .insufficientData := by
  unfold buildThresholds at h
  by_cases h1 : (imgs.filter isNormal).isEmpty
  · rw [if_pos h1] at h
    injection h with h
    exact h.symm
  · rw [if_neg h1] at h
    by_cases h2 : allSame (normalPixelScores imgs)
    · rw [if_pos h2] at h
      injection h with h
      exact h.symm
    · rw [if_neg h2] at h
      cases h

theorem computeResult_ok (lg : ℚ → ℚ) (m : Metric) (st : EvaluatorState)
    (ths : List ℚ) (hne : st.images ≠ [])
    (hok : buildThresholds st.images = .ok ths) :
    computeResult lg m st = computeWith lg m st.images ths := by
  unfold computeResult
  rw [if_neg (fun h => hne (List.isEmpty_iff.mp h)), hok]

theorem computeResult_error (lg : ℚ → ℚ) (m : Metric) (st : EvaluatorState)
    {e : MetricError} (hne : st.images ≠ [])
    (herr : buildThresholds st.images = .error e) :
    computeResult lg m st = .error e := by
  unfold computeResult
  rw [if_neg (fun h => hne (List.isEmpty_iff.mp h)), herr]

theorem curvePoints_pairwise (ths ns : List ℚ) (img : Image)
    (hs : ths.Pairwise (· ≤ ·)) :
    (curvePoints ths ns img).Pairwise (fun p q => p.1 ≤ q.1) := by
  unfold curvePoints
  rw [List.pairwise_reverse, List.pairwise_map]
  exact hs.imp (fun h => fpr_antitone ns h)

theorem curvePoints_tpr_unit (ths ns : List ℚ) (img : Image) :
    ∀ p ∈ curvePoints ths ns img, 0 ≤ p.2 ∧ p.2 ≤ 1 := by
  intro p hp
  unfold curvePoints at hp
  rw [List.mem_reverse] at hp
  rcases List.mem_map.mp hp with ⟨t, _, heq⟩
  rw [← heq]
  exact ⟨recallVal_nonneg img t, recallVal_le_one img t⟩

theorem aupimosOf_forall₂ (lg : ℚ → ℚ) (lower upper : ℚ) (ths ns : List ℚ)
    (imgs : List Image) (hlg : StrictMono lg) (hlu : lower < upper)
    (hths : ths.Pairwise (· ≤ ·)) :
    List.Forall₂ (fun (img : Image) (sc : Option ℚ) =>
      (isNormal img = true → sc = none) ∧
      (isNormal img = false → ∃ v, sc = some v ∧ 0 ≤ v ∧ v ≤ 1))
      imgs (aupimosOf lg lower upper ths ns imgs) := by
  unfold aupimosOf
  rw [List.forall₂_map_right_iff]
  rw [List.forall₂_same]
  intro img _
  by_cases hn : numAnom img = 0
  · rw [if_pos hn]
    refine ⟨fun _ => rfl, fun hfalse => ?_⟩
    rw [(isNormal_iff_numAnom img).mpr hn] at hfalse
    cases hfalse
  · rw [if_neg hn]
    refine ⟨fun htrue => ?_, fun _ => ?_⟩
    · exact absurd ((isNormal_iff_numAnom img).mp htrue) hn
    · refine ⟨_, rfl, ?_⟩
      exact aupimoScore_mem_unit lg hlg _ lower upper hlu
        (curvePoints_pairwise ths ns img hths)
        (curvePoints_tpr_unit ths ns img)

theorem aupimosOf_none_iff (lg : ℚ → ℚ) (lower upper : ℚ) (ths ns : List ℚ)
    (imgs : List Image) :
    List.Forall₂ (fun (img : Image) (sc : Option ℚ) =>
      sc = none ↔ isNormal img = true)
      imgs (aupimosOf lg lower upper ths ns imgs) := by
  unfold aupimosOf
  rw [List.forall₂_map_right_iff, List.forall₂_same]
  intro img _
  by_cases hn : numAnom img = 0
  · rw [if_pos hn]
    simp [(isNormal_iff_numAnom img).mpr hn]
  · rw [if_neg hn]
    constructor
    · intro h
      cases h
    · intro h
      exact absurd ((isNormal_iff_numAnom img).mp h) hn

/-- C2: in a completed compute, every anomalous image receives an AUPIMO
score in [0, 1] and every normal image (mask entirely zero, hence zero
anomalous pixels) receives the NaN sentinel entry; whenever the grid builds,
compute succeeds totally, so the sentinel is produced, never an exception. -/
theorem compute_scores_unit_or_nan (lg : ℚ → ℚ) (m : Metric)
    (st : EvaluatorState) (ths : List ℚ) (hlg : StrictMono lg)
    (hlu : m.lower < m.upper) (havg : m.returnAverage = false)
    (hne : st.images ≠ []) (hok : buildThresholds st.images = .ok ths) :
    ∃ pr ar, computeResult lg m st = .ok (.full pr ar) ∧
      List.Forall₂ (fun (img : Image) (sc : Option ℚ) =>
        (isNormal img = true → sc = none) ∧
        (isNormal img = false → ∃ v, sc = some v ∧ 0 ≤ v ∧ v ≤ 1))
        st.images ar.aupimos := by
  refine ⟨⟨ths, ths.map (fpr (normalPixelScores st.images)),
      st.images.map (imageCurve ths (normalPixelScores st.images))⟩,
    ⟨aupimosOf lg m.lower m.upper ths (normalPixelScores st.images) st.images,
      m.lower, m.upper, ths.length⟩, ?_, ?_⟩
  · rw [computeResult_ok lg m st ths hne hok]
    unfold computeWith
    rw [if_neg (by rw [havg]; exact Bool.false_ne_true)]
  · exact aupimosOf_forall₂ lg m.lower m.upper ths
      (normalPixelScores st.images) st.images hlg hlu
      ((buildThresholds_ok_pairwise hok).imp (fun h => le_of_lt h))

theorem compute_scores_unit_or_nan_witness :
    ∃ pr ar,
      computeResult id ⟨false, 1, 2⟩
          ⟨[[(1, false), (2, false)], [(3, true), (0, false)]]⟩ =
        .ok (.full pr ar) ∧
      List.Forall₂ (fun (img : Image) (sc : Option ℚ) =>
        (isNormal img = true → sc = none) ∧
        (isNormal img = false → ∃ v, sc = some v ∧ 0 ≤ v ∧ v ≤ 1))
        [[(1, false), (2, false)], [(3, true), (0, false)]] ar.aupimos :=
  compute_scores_unit_or_nan id ⟨false, 1, 2⟩
    ⟨[[(1, false), (2, false)], [(3, true), (0, false)]]⟩ [1, 2]
    strictMono_id (by norm_num) rfl (by simp) rfl

/-- C10: with return_average = false, a successful compute returns the pair
of the PIMO curve collection (one curve per image) and the AUPIMO result,
whose aupimos field carries exactly one entry per image in update order, the
entry being the NaN sentinel exactly for the normal images. -/
theorem compute_full_returns_pair (lg : ℚ → ℚ) (m : Metric)
    (st : EvaluatorState) (ths : List ℚ) (havg : m.returnAverage = false)
    (hne : st.images ≠ []) (hok : buildThresholds st.images = .ok ths) :
    computeResult lg m st = .ok (.full
      ⟨ths, ths.map (fpr (normalPixelScores st.images)),
        st.images.map (imageCurve ths (normalPixelScores st.images))⟩
      ⟨aupimosOf lg m.lower m.upper ths (normalPixelScores st.images)
          st.images, m.lower, m.upper, ths.length⟩) ∧
    List.Forall₂ (fun (img : Image) (sc : Option ℚ) =>
      sc = none ↔ isNormal img = true)
      st.images
      (aupimosOf lg m.lower m.upper ths (normalPixelScores st.images)
        st.images) := by
  constructor
  · rw [computeResult_ok lg m st ths hne hok]
    unfold computeWith
    rw [if_neg (by rw [havg]; exact Bool.false_ne_true)]
  · exact aupimosOf_none_iff lg m.lower m.upper ths
      (normalPixelScores st.images) st.images

theorem compute_full_returns_pair_witness :
    computeResult id ⟨false, 1, 2⟩
        ⟨[[(1, false), (2, false)], [(3, true), (0, false)]]⟩ =
      .ok (.full
        ⟨[1, 2],
          [1, 2].map (fpr (normalPixelScores
            [[(1, false), (2, false)], [(3, true), (0, false)]])),
          [[(1, false), (2, false)], [(3, true), (0, false)]].map
            (imageCurve [1, 2] (normalPixelScores
              [[(1, false), (2, false)], [(3, true), (0, false)]]))⟩
        ⟨aupimosOf id 1 2 [1, 2]
            (normalPixelScores
              [[(1, false), (2, false)], [(3, true), (0, false)]])
            [[(1, false), (2, false)], [(3, true), (0, false)]],
          1, 2, 2⟩) ∧
    List.Forall₂ (fun (img : Image) (sc : Option ℚ) =>
      sc = none ↔ isNormal img = true)
      [[(1, false), (2, false)], [(3, true), (0, false)]]
      (aupimosOf id 1 2 [1, 2]
        (normalPixelScores [[(1, false), (2, false)], [(3, true), (0, false)]])
        [[(1, false), (2, false)], [(3, true), (0, false)]]) :=
  compute_full_returns_pair id ⟨false, 1, 2⟩
    ⟨[[(1, false), (2, false)], [(3, true), (0, false)]]⟩ [1, 2]
    rfl (by simp) rfl

/-- C6: calling compute twice on the same evaluator state with no intervening
update yields identical results: compute does not mutate the retained state
and re-derives the same value deterministically. -/
theorem compute_idempotent (lg : ℚ → ℚ) (m : Metric) (st : EvaluatorState) :
    (computePair lg m (computePair lg m st).2).1 = (computePair lg m st).1 ∧
    (computePair lg m (computePair lg m st).2).2 = (computePair lg m st).2 :=
  ⟨rfl, rfl⟩

/-- C8: compute in the Empty state fails with NotEnoughDataError, and a
failed compute — whichever error it raises — leaves the evaluator state
unchanged, returning the bare error and no partial result. -/
theorem compute_empty_fails_state_unchanged (lg : ℚ → ℚ) (m : Metric) :
    (computePair lg m ⟨[]⟩).1 = .error .notEnoughData ∧
    ∀ (st : EvaluatorState) (e : MetricError),
      (computePair lg m st).1 = .error e → (computePair lg m st).2 = st := by
  constructor
  · simp [computePair, computeResult]
  · intro st e _
    rfl

theorem compute_empty_fails_state_unchanged_witness :
    (computePair id ⟨false, 1, 2⟩ ⟨[]⟩).2 = ⟨[]⟩ :=
  (compute_empty_fails_state_unchanged id ⟨false, 1, 2⟩).2 ⟨[]⟩
    .notEnoughData (by simp [computePair, computeResult])

/-- C7: in average mode compute reduces exactly the non-NaN per-image scores
via arithmetic mean; with one normal and one anomalous image, in either
update order, the average equals the anomalous image score; with zero
anomalous images compute fails with InsufficientDataError rather than
returning a NaN average. -/
theorem compute_average_mean (lg : ℚ → ℚ) (m : Metric) (st : EvaluatorState)
    (havg : m.returnAverage = true) :
    (∀ ths v, buildThresholds st.images = .ok ths → st.images ≠ [] →
      computeResult lg m st = .ok (.average v) →
      v = ((aupimosOf lg m.lower m.upper ths (normalPixelScores st.images)
          st.images).filterMap id).sum /
        (((aupimosOf lg m.lower m.upper ths (normalPixelScores st.images)
          st.images).filterMap id).length : ℚ)) ∧
    (∀ imgN imgA ths, st.images = [imgN, imgA] → isNormal imgN = true →
      isNormal imgA = false → buildThresholds st.images = .ok ths →
      computeResult lg m st = .ok (.average (aupimoScore lg
        (curvePoints ths (normalPixelScores st.images) imgA)
        m.lower m.upper))) ∧
    (∀ imgA imgN ths, st.images = [imgA, imgN] → isNormal imgN = true →
      isNormal imgA = false → buildThresholds st.images = .ok ths →
      computeResult lg m st = .ok (.average (aupimoScore lg
        (curvePoints ths (normalPixelScores st.images) imgA)
        m.lower m.upper))) ∧
    ((∀ img ∈ st.images, isNormal img = true) → st.images ≠ [] →
      computeResult lg m st = .error .insufficientData) := by
  refine ⟨?_, ?_, ?_, ?_⟩
  · intro ths v hok hne hcomp
    rw [computeResult_ok lg m st ths hne hok] at hcomp
    unfold computeWith at hcomp
    rw [if_pos havg] at hcomp
    unfold averageOutput at hcomp
    by_cases hemp : ((aupimosOf lg m.lower m.upper ths
        (normalPixelScores st.images) st.images).filterMap id).isEmpty
    · rw [if_pos hemp] at hcomp
      cases hcomp
    · rw [if_neg hemp] at hcomp
      injection hcomp with hcomp
      injection hcomp with hcomp
      exact hcomp.symm
  · intro imgN imgA ths himgs hN hA hok
    have hne : st.images ≠ [] := by
      rw [himgs]
      simp
    rw [computeResult_ok lg m st ths hne hok]
    unfold computeWith
    rw [if_pos havg]
    have hnN : numAnom imgN = 0 := (isNormal_iff_numAnom imgN).mp hN
    have hnA : numAnom imgA ≠ 0 := by
      intro h
      rw [(isNormal_iff_numAnom imgA).mpr h] at hA
      cases hA
    rw [himgs]
    unfold aupimosOf averageOutput
    simp [hnN, hnA]
  · intro imgA imgN ths himgs hN hA hok
    have hne : st.images ≠ [] := by
      rw [himgs]
      simp
    rw [computeResult_ok lg m st ths hne hok]
    unfold computeWith
    rw [if_pos havg]
    have hnN : numAnom imgN = 0 := (isNormal_iff_numAnom imgN).mp hN
    have hnA : numAnom imgA ≠ 0 := by
      intro h
      rw [(isNormal_iff_numAnom imgA).mpr h] at hA
      cases hA
    rw [himgs]
    unfold aupimosOf averageOutput
    simp [hnN, hnA]
  · intro hall hne
    cases hb : buildThresholds st.images with
    | error e =>
      rw [computeResult_error lg m st hne hb,
        buildThresholds_error_kind hb]
    | ok ths =>
      rw [computeResult_ok lg m st ths hne hb]
      unfold computeWith
      rw [if_pos havg]
      have hnil : (aupimosOf lg m.lower m.upper ths
          (normalPixelScores st.images) st.images).filterMap id = [] := by
        unfold aupimosOf
        rw [List.filterMap_map]
        rw [List.filterMap_eq_nil_iff]
        intro img himg
        have hn : numAnom img = 0 :=
          (isNormal_iff_numAnom img).mp (hall img himg)
        simp [hn]
      unfold averageOutput
      rw [hnil]
      rfl

theorem compute_average_mean_witness :
    computeResult id ⟨true, 1, 2⟩
        ⟨[[(1, false), (2, false)], [(3, true), (0, false)]]⟩ =
      .ok (.average (aupimoScore id
        (curvePoints [1, 2]
          (normalPixelScores
            [[(1, false), (2, false)], [(3, true), (0, false)]])
          [(3, true), (0, false)]) 1 2)) :=
  (compute_average_mean id ⟨true, 1, 2⟩
    ⟨[[(1, false), (2, false)], [(3, true), (0, false)]]⟩ rfl).2.1
    [(1, false), (2, false)] [(3, true), (0, false)] [1, 2]
    rfl (by decide) (by decide) rfl

end Aupimo
